import Mathlib

/-!
Shallow embedding of the Deep Sea Adventure rules engine
(`src/ruin_tile.py`, `src/space.py`, `src/player.py`, `src/board.py`,
`src/game.py`) together with theorems settling the specification claims.

Python objects become immutable Lean structures; mutation becomes explicit
state passing.  Randomness (tile shuffles, dice rolls) is modelled by
explicit function parameters / injected values, as the source allows an
injectable random source.
-/

namespace DeepSea

/-- Embeds `RuinTile` (ruin_tile.py): an immutable depth/value pair.
The Python validator enforces 1 ≤ level ≤ 4 and value ≥ 0; we use `Nat`
fields and carry range facts in theorems where needed. -/
structure RuinTile where
  level : Nat
  value : Nat
deriving DecidableEq, Repr

/-- Embeds `Space` (space.py): a position on the path holding a stack of
ruin tiles; `ruins` is a stack whose top is the last list element. -/
structure Space where
  is_submarine : Bool := false
  ruins : List RuinTile := []
  max_stack_size : Option Nat := none
deriving DecidableEq, Repr

namespace Space

/-- Embeds `Space.has_ruin`. -/
def has_ruin (s : Space) : Bool :=
  !s.ruins.isEmpty

/-- Embeds `Space.ruin_count`. -/
def ruin_count (s : Space) : Nat :=
  s.ruins.length

/-- Embeds `Space.add_ruin` / `Space.push_ruin` success path: the tile is
appended on top of the stack (the Python error cases guard the submarine
and full stacks; callers in scope always satisfy them). -/
def push_ruin (s : Space) (t : RuinTile) : Space :=
  { s with ruins := s.ruins ++ [t] }

/-- Modelled from the spec: `Space.pop_all_ruins_as_single` is called by
`Game.perform_action` and exercised by `test/test_space.py`, but the method
itself is absent from `src/space.py`.  Per the spec ("the whole stack on
that Space is collapsed into a single tile whose value is the sum of the
stack and whose depth level is the maximum depth level in the stack") and
the tests, it empties the space and returns the combined tile, or `none`
on an empty space.  Returns (combined tile?, updated space). -/
def pop_all_ruins_as_single (s : Space) : Option RuinTile × Space :=
  if s.ruins.isEmpty then (none, s)
  else
    (some { level := (s.ruins.map RuinTile.level).foldr max 0,
            value := (s.ruins.map RuinTile.value).sum },
     { s with ruins := [] })

end Space

/-- Embeds `Player` (player.py): per-participant state. -/
structure Player where
  name : String
  player_id : Option Nat := none
  is_ai : Bool := false
  position : Nat := 0
  going_back : Bool := false
  has_returned : Bool := false
  carrying : List RuinTile := []
  score_tiles : List RuinTile := []
deriving DecidableEq, Repr

/-- Placeholder player used to totalise list indexing (indexes used by the
engine are always in range; theorems carry in-range hypotheses). -/
def default_player : Player :=
  { name := "" }

namespace Player

/-- Embeds `Player.carrying_count`. -/
def carrying_count (p : Player) : Nat :=
  p.carrying.length

/-- Embeds `Player.total_score`. -/
def total_score (p : Player) : Nat :=
  (p.score_tiles.map RuinTile.value).sum

/-- Embeds `Player.is_on_submarine`. -/
def is_on_submarine (p : Player) : Bool :=
  p.position == 0

/-- Embeds `Player.start_going_back`. -/
def start_going_back (p : Player) : Player :=
  { p with going_back := true }

/-- Embeds `Player.continue_descending`. -/
def continue_descending (p : Player) : Player :=
  { p with going_back := false }

/-- Embeds `Player.mark_as_returned`. -/
def mark_as_returned (p : Player) : Player :=
  { p with has_returned := true, position := 0 }

/-- Embeds `Player.take_ruin`. -/
def take_ruin (p : Player) (t : RuinTile) : Player :=
  { p with carrying := p.carrying ++ [t] }

/-- Modelled from the spec: `Player.drop_one_ruin` is called by
`Game.perform_action` / `Game.end_round` and exercised by
`test/test_player.py`, but absent from `src/player.py`.  Per the spec
("removes the most recently picked-up carried tile (LIFO)") and the tests,
it pops the last carried tile, returning `none` when carrying nothing. -/
def drop_one_ruin (p : Player) : Option RuinTile × Player :=
  match p.carrying.getLast? with
  | none => (none, p)
  | some t => (some t, { p with carrying := p.carrying.dropLast })

/-- Embeds `Player.drop_all_carrying` (state part). -/
def drop_all_carrying (p : Player) : Player :=
  { p with carrying := [] }

/-- Embeds `Player.secure_carried_treasures`.  (The Python early return on
an empty carrying list yields the same state.) -/
def secure_carried_treasures (p : Player) : Player :=
  { p with score_tiles := p.score_tiles ++ p.carrying, carrying := [] }

/-- Embeds `Player.reset_for_new_round`. -/
def reset_for_new_round (p : Player) : Player :=
  { p with position := 0, going_back := false, has_returned := false,
           carrying := [] }

/-- Embeds `Player.reset_for_new_game`. -/
def reset_for_new_game (p : Player) : Player :=
  ({ p with score_tiles := [] }).reset_for_new_round

end Player

/-- ASCII uppercase of one character (models Python `str.upper` on the
one-letter action codes the engine receives). -/
def upper_char (c : Char) : Char :=
  if 'a' ≤ c ∧ c ≤ 'z' then Char.ofNat (c.toNat - 32) else c

/-- ASCII whitespace test (models the characters Python `str.strip`
removes for the engine's action codes). -/
def is_ws (c : Char) : Bool :=
  c == ' ' || c == '\t' || c == '\n' || c == '\r'

/-- Models `action_code.upper().strip()` from `Game.perform_action`. -/
def normalize_code (s : String) : String :=
  ⟨((s.data.map upper_char).dropWhile is_ws).reverse.dropWhile is_ws |>.reverse⟩

/-- The Python loop `while p.carrying: dropped.append(p.drop_one_ruin())`
(game.py end_round) emits the carried tiles in LIFO order; this structural
recursion mirrors that emission order. -/
def pop_lifo : List RuinTile → List RuinTile
  | [] => []
  | t :: ts => pop_lifo ts ++ [t]

theorem pop_lifo_eq_reverse (l : List RuinTile) : pop_lifo l = l.reverse := by
  induction l with
  | nil => rfl
  | cons t ts ih => simp [pop_lifo, ih]

/-- Embeds `Board` (board.py): ordered spaces, index 0 the submarine. -/
structure Board where
  spaces : List Space
deriving DecidableEq, Repr

namespace Board

/-- Embeds `Board.last_index`. -/
def last_index (b : Board) : Nat :=
  b.spaces.length - 1

/-- Embeds `Board.submarine_index` (constant 0). -/
def submarine_index (_ : Board) : Nat :=
  0

/-- The per-level value lists of `Board._create_default_tiles`
(the `level_values` dict literal in board.py). -/
def level_values : Nat → List Nat
  | 1 => [0, 0, 1, 1, 2, 2, 3, 3]
  | 2 => [4, 4, 5, 5, 6, 6, 7, 7]
  | 3 => [8, 8, 9, 9, 10, 10, 11, 11]
  | 4 => [12, 12, 13, 13, 14, 14, 15, 15]
  | _ => []

/-- Embeds `Board._create_default_tiles`.  The call to `random.shuffle`
inside each level is modelled by the injected function `sh`, constrained
to permute its input in the theorems. -/
def create_default_tiles (sh : Nat → List Nat → List Nat) : List RuinTile :=
  (([1, 2, 3, 4] : List Nat).map
    (fun lv => (sh lv (level_values lv)).map
      (fun v => RuinTile.mk lv v))).flatten

/-- Embeds `Board.create_default`.  `sh1` models the `random.shuffle` inside
`_create_default_tiles`; `sh2` models the per-level bucket `rng.shuffle`
performed when `shuffle_tiles` is true.  The defaultdict bucketing by
`tile.level` preserving encounter order is a filter over the tile list. -/
def create_default (mss : Option Nat) (shuffle_tiles : Bool)
    (sh1 : Nat → List Nat → List Nat)
    (sh2 : Nat → List RuinTile → List RuinTile) : Board :=
  let tiles := create_default_tiles sh1
  let tiles :=
    if shuffle_tiles then
      (([1, 2, 3, 4] : List Nat).map
        (fun lv => sh2 lv (tiles.filter (fun t => t.level == lv)))).flatten
    else tiles
  ⟨{ is_submarine := true } ::
    tiles.map (fun t =>
      { is_submarine := false, ruins := [t], max_stack_size := mss })⟩

/-- All tiles present on the board, in board order. -/
def all_tiles (b : Board) : List RuinTile :=
  (b.spaces.map Space.ruins).flatten

/-- Embeds `Board.get_space` via total indexing (engine calls are always
in range; theorems carry the bound). -/
def get_space (b : Board) (i : Nat) : Space :=
  b.spaces.getD i {}

/-- Embeds `Board.compress_path`: keep space 0, drop empty later spaces. -/
def compress_path (b : Board) : Board :=
  match b.spaces with
  | [] => b
  | s0 :: rest => ⟨s0 :: rest.filter (fun s => s.has_ruin)⟩

/-- The body of the `for tile in tiles` loop of `Board.drop_tiles_to_bottom`:
accumulates the current stack and flushes a new space whenever it reaches
`stack_size`; the trailing partial stack is flushed at the end. -/
def drop_loop (stack_size : Nat) (cur : List RuinTile) :
    List RuinTile → List Space
  | [] => if cur.isEmpty then [] else [{ ruins := cur, max_stack_size := some stack_size }]
  | t :: ts =>
      let cur2 := cur ++ [t]
      if cur2.length == stack_size then
        { ruins := cur2, max_stack_size := some stack_size }
          :: drop_loop stack_size [] ts
      else drop_loop stack_size cur2 ts

/-- Embeds `Board.drop_tiles_to_bottom`. -/
def drop_tiles_to_bottom (b : Board) (tiles : List RuinTile)
    (stack_size : Nat := 3) : Board :=
  if tiles.isEmpty then b
  else ⟨b.spaces ++ drop_loop stack_size [] tiles⟩

end Board

/-- The canonical tile list as the source literals actually build it with
no shuffling: 8 tiles per depth level (32 tiles in total), each of the
values 0–3 / 4–7 / 8–11 / 12–15 appearing exactly twice at levels 1–4. -/
def canonical_tiles : List RuinTile :=
  Board.create_default_tiles (fun _ l => l)

/-- The tiles `Board._create_default_tiles` emits for one depth level. -/
def level_group (sh1 : Nat → List Nat → List Nat) (lv : Nat) : List RuinTile :=
  (sh1 lv (Board.level_values lv)).map (fun v => RuinTile.mk lv v)

/-- Embeds the `GamePhase` enum (game.py). -/
inductive GamePhase where
  | SETUP
  | PLAYING
  | ROUND_END
  | GAME_END
deriving DecidableEq, Repr

/-- Embeds the `TurnResult` dataclass (game.py). -/
structure TurnResult where
  player_index : Nat
  player_name : String
  round_number : Nat
  air_before : Int
  air_after : Int
  dice_roll : Nat
  move_distance : Nat
  initial_position : Nat
  final_position : Nat
  reached_submarine : Bool
  can_act_on_space : Bool
deriving DecidableEq, Repr

/-- Embeds the mutable state of `Game` (game.py).  Air is an `Int`: the
source subtracts the carry penalty unconditionally and lets it go
negative.  Players are addressed by their index in `players` (the source
passes object references and recovers indices with `players.index`). -/
structure Game where
  players : List Player
  num_rounds : Nat
  air_per_round : Nat
  board : Board
  round_number : Nat
  air : Int
  current_player_index : Nat
  phase : GamePhase
  emptied_spaces : List Nat
  return_log : List Nat
  next_round_start_index : Nat
deriving DecidableEq, Repr

namespace Game

/-- Reads player `i` (total; engine indexes are always in range). -/
def getPlayer (g : Game) (i : Nat) : Player :=
  g.players.getD i default_player

/-- Writes player `i` (models in-place mutation of `self.players[i]`). -/
def setPlayer (g : Game) (i : Nat) (p : Player) : Game :=
  { g with players := g.players.set i p }

/-- Embeds `Game.current_player`. -/
def current_player (g : Game) : Player :=
  g.getPlayer g.current_player_index

/-- Embeds `Game.is_round_over`. -/
def is_round_over (g : Game) : Bool :=
  decide (g.air ≤ 0) || g.players.all (fun p => p.has_returned)

/-- Embeds `Game.is_game_over`. -/
def is_game_over (g : Game) : Bool :=
  decide (g.round_number > g.num_rounds)

/-- Embeds `Game._register_player_return` (indices replace identity). -/
def register_player_return (g : Game) (i : Nat) : Game :=
  if i ∈ g.return_log then g
  else { g with return_log := g.return_log ++ [i] }

/-- The positions of every player other than `i`
(`Game._is_space_occupied_by_other` checks membership in this list;
these positions are fixed for the duration of one player's move). -/
def others_positions (g : Game) (i : Nat) : List Nat :=
  ((List.range g.players.length).filter (fun j => j ≠ i)).map
    (fun j => (g.getPlayer j).position)

end Game

/-- The descending case of the `while steps_left > 0` loop of
`Game._move_player`: step to `pos + 1`; past the board clamp at
`last`; a space occupied by another player (membership in `others`) is
entered without consuming a step.  Returns the final position. -/
def move_down_loop (last : Nat) (others : List Nat) (pos steps : Nat) : Nat :=
  if steps = 0 then pos
  else
    let next := pos + 1
    if next > last then last
    else if next ∈ others then move_down_loop last others next steps
    else move_down_loop last others next (steps - 1)
termination_by last - pos
decreasing_by
  all_goals simp_all; omega

/-- The ascending case of the `while steps_left > 0` loop of
`Game._move_player`: step to `pos - 1`; reaching or passing the
submarine (index 0) returns immediately; occupied spaces are entered
without consuming a step.  Returns (final position, reached submarine). -/
def move_up_loop (others : List Nat) (pos steps : Nat) : Nat × Bool :=
  if steps = 0 then (pos, false)
  else if pos ≤ 1 then (0, true)
  else
    let next := pos - 1
    if next ∈ others then move_up_loop others next steps
    else move_up_loop others next (steps - 1)
termination_by pos
decreasing_by
  all_goals omega

namespace Game

/-- Embeds `Game._move_player`.  The trailing
`if going_back and is_on_submarine and not reached` re-check of the
source is kept (the `fpos = 0` test), though the up loop never exits
that way.  Returns (updated game, reached_submarine). -/
def move_player (g : Game) (i : Nat) (moves : Nat) : Game × Bool :=
  let p := g.getPlayer i
  if moves = 0 then (g, false)
  else
    let others := g.others_positions i
    if p.going_back then
      match move_up_loop others p.position moves with
      | (_, true) =>
          ((g.setPlayer i p.mark_as_returned).register_player_return i, true)
      | (fpos, false) =>
          if fpos = 0 then
            ((g.setPlayer i ({ p with position := fpos }).mark_as_returned).register_player_return
              i, true)
          else (g.setPlayer i { p with position := fpos }, false)
    else
      let fpos := move_down_loop g.board.last_index others p.position moves
      (g.setPlayer i { p with position := fpos }, false)

/-- Embeds `Game.begin_turn`.  The dice roll is injected (the source
reads it from the configurable `Dice`); the raised `RuntimeError`
becomes an `Except.error` and, since the source raises before any
mutation, the state component is returned unchanged there. -/
def begin_turn (g : Game) (i : Nat) (going_back : Bool) (dice_roll : Nat) :
    Game × Except String TurnResult :=
  let p := g.getPlayer i
  if p.has_returned then
    (g, .error "begin_turn appele sur un joueur deja revenu.")
  else
    let effective_going_back :=
      if p.going_back then true
      else if p.is_on_submarine && !p.has_returned then false
      else going_back
    let p1 := if effective_going_back then p.start_going_back
              else p.continue_descending
    let g1 := g.setPlayer i p1
    let air_before := g1.air
    let penalty := p1.carrying_count
    let g2 := { g1 with air := g1.air - (penalty : Int) }
    let air_after := g2.air
    let move_distance := dice_roll - penalty
    let initial_position := p1.position
    let mr := g2.move_player i move_distance
    let g3 := mr.1
    let can_act := !(g3.getPlayer i).is_on_submarine && decide (0 < g3.air)
    (g3, .ok
      { player_index := i
        player_name := p1.name
        round_number := g3.round_number
        air_before := air_before
        air_after := air_after
        dice_roll := dice_roll
        move_distance := move_distance
        initial_position := initial_position
        final_position := (g3.getPlayer i).position
        reached_submarine := mr.2
        can_act_on_space := can_act })

/-- Embeds `Game.perform_action`.  Returns (updated game, tile returned).
The `self._emptied_spaces_this_round` set becomes a duplicate-free list. -/
def perform_action (g : Game) (i : Nat) (action_code : String) :
    Game × Option RuinTile :=
  let p := g.getPlayer i
  if p.is_on_submarine then (g, none)
  else
    let space := g.board.get_space p.position
    let code := normalize_code action_code
    if code == "A" then (g, none)
    else if code == "B" then
      if !space.has_ruin then (g, none)
      else
        match space.pop_all_ruins_as_single with
        | (some t, space2) =>
            let g1 := { g with board := ⟨g.board.spaces.set p.position space2⟩ }
            let g2 := g1.setPlayer i (p.take_ruin t)
            let g3 :=
              if !space2.has_ruin then
                if p.position ∈ g2.emptied_spaces then g2
                else { g2 with emptied_spaces := g2.emptied_spaces ++ [p.position] }
              else g2
            (g3, some t)
        | (none, _) => (g, none)
    else if code == "C" then
      if space.has_ruin then (g, none)
      else
        match p.drop_one_ruin with
        | (none, _) => (g, none)
        | (some t, p2) =>
            let g1 := g.setPlayer i p2
            let g2 := { g1 with
              board := ⟨g1.board.spaces.set p.position (space.push_ruin t)⟩ }
            let g3 := { g2 with
              emptied_spaces := g2.emptied_spaces.filter (fun x => x ≠ p.position) }
            (g3, some t)
    else (g, none)

/-- Embeds `Game.advance_to_next_player`'s `for _ in range(nb_players)`
loop: advance cyclically, stop at the first player not yet returned. -/
def advance_loop (g : Game) : Nat → Nat → Nat
  | 0, idx => idx
  | k + 1, idx =>
      let idx2 := (idx + 1) % g.players.length
      if (g.getPlayer idx2).has_returned then g.advance_loop k idx2 else idx2

/-- Embeds `Game.advance_to_next_player`. -/
def advance_to_next_player (g : Game) : Game :=
  { g with current_player_index :=
      g.advance_loop g.players.length g.current_player_index }

end Game

/-- Stable insertion into a list sorted by `key` in descending order:
the new element goes before the first entry whose key it weakly exceeds.
Together with `sort_desc` this models Python's stable
`sorted(..., key=..., reverse=True)` (any two stable sorts by the same
total preorder agree). -/
def insert_desc (key : Nat → Nat) (i : Nat) : List Nat → List Nat
  | [] => [i]
  | j :: rest =>
      if key j ≤ key i then i :: j :: rest else j :: insert_desc key i rest

/-- Stable descending sort by `key`; see `insert_desc`. -/
def sort_desc (key : Nat → Nat) : List Nat → List Nat
  | [] => []
  | i :: rest => insert_desc key i (sort_desc key rest)

namespace Game

/-- Embeds `max(..., key=lambda t: t[1].position)` over player indices:
Python's `max` keeps the first maximal element. -/
def argmax_position (g : Game) : List Nat → Nat
  | [] => 0
  | i :: rest =>
      rest.foldl
        (fun best j =>
          if (g.getPlayer j).position > (g.getPlayer best).position then j
          else best) i

/-- Embeds `Game._compute_next_round_start_index`. -/
def compute_next_round_start_index (g : Game) : Nat :=
  let n := g.players.length
  let on_sub := (List.range n).filter (fun i => (g.getPlayer i).is_on_submarine)
  let not_on_sub :=
    (List.range n).filter (fun i => !(g.getPlayer i).is_on_submarine)
  if !on_sub.isEmpty && not_on_sub.isEmpty then
    match g.return_log.reverse.find? (fun idx => idx < n) with
    | some idx => idx
    | none => 0
  else if on_sub.isEmpty && !not_on_sub.isEmpty then
    g.argmax_position not_on_sub
  else if !on_sub.isEmpty && !not_on_sub.isEmpty then
    g.argmax_position not_on_sub
  else 0

/-- One iteration of the exhausted-air loop of `Game.end_round`: a player
at the submarine secures its treasure; any other player drops every
carried tile (LIFO pops) onto the accumulating `dropped` list. -/
def end_round_drain_step (acc : List Player × List RuinTile) (i : Nat) :
    List Player × List RuinTile :=
  let p := acc.1.getD i default_player
  if p.is_on_submarine then
    (acc.1.set i p.secure_carried_treasures, acc.2)
  else
    (acc.1.set i p.drop_all_carrying, acc.2 ++ pop_lifo p.carrying)

/-- Embeds `Game.end_round`. -/
def end_round (g : Game) : Game :=
  let exhausted := g.air ≤ 0
  let g1 :=
    if exhausted then
      let ord := sort_desc (fun i => (g.getPlayer i).position)
        (List.range g.players.length)
      let res := ord.foldl end_round_drain_step (g.players, [])
      let g1 := { g with players := res.1 }
      if !res.2.isEmpty then
        { g1 with board := g1.board.drop_tiles_to_bottom res.2 3 }
      else g1
    else
      { g with players := g.players.map (fun p =>
          if p.is_on_submarine then p.secure_carried_treasures
          else p.drop_all_carrying) }
  let g2 := { g1 with next_round_start_index := g1.compute_next_round_start_index }
  { g2 with board := g2.board.compress_path, phase := .ROUND_END }

/-- The order in which `Game.end_round` processes players when air is
exhausted: indices stably sorted by position, farthest first (the
`sorted(..., key=position, reverse=True)` call). -/
def drain_order (g : Game) : List Nat :=
  sort_desc (fun i => (g.getPlayer i).position) (List.range g.players.length)

/-- The players list and dropped-tile list produced by the exhausted-air
loop of `Game.end_round`. -/
def drain_result (g : Game) : List Player × List RuinTile :=
  (drain_order g).foldl end_round_drain_step (g.players, [])

/-- Embeds the serialisable record produced by `Game.to_dict`
(dicts become structures; `Board.to_dict`/`Player.to_dict` and their
`from_dict` inverses are faithful component-wise round trips, so the
board and player components are carried as themselves). -/
structure Dict where
  num_rounds : Nat
  air_per_round : Nat
  round_number : Nat
  air : Int
  current_player_index : Nat
  board : Board
  players : List Player
deriving DecidableEq, Repr

/-- Embeds `Game.to_dict`. -/
def to_dict (g : Game) : Dict :=
  { num_rounds := g.num_rounds
    air_per_round := g.air_per_round
    round_number := g.round_number
    air := g.air
    current_player_index := g.current_player_index
    board := g.board
    players := g.players }

/-- Embeds `Game.__init__` (success path: 2–6 players, positive rounds and
air).  The constructor resets every player via
`_reset_all_players_for_new_game`; `default_board` stands for the
`Board.create_default()` built when no board is passed. -/
def init (players : List Player) (num_rounds air_per_round : Nat)
    (default_board : Board) : Game :=
  { players := players.map Player.reset_for_new_game
    num_rounds := num_rounds
    air_per_round := air_per_round
    board := default_board
    round_number := 1
    air := (air_per_round : Int)
    current_player_index := 0
    phase := .PLAYING
    emptied_spaces := []
    return_log := []
    next_round_start_index := 0 }

/-- Embeds `Game.from_dict`: rebuild the players, construct a fresh game
through `__init__` (which resets those players and builds a default
board), then overwrite round number, air, current player index and
board from the dict. -/
def from_dict (d : Dict) (default_board : Board) : Game :=
  let g := init d.players d.num_rounds d.air_per_round default_board
  { g with round_number := d.round_number
           air := d.air
           current_player_index := d.current_player_index
           board := d.board }

end Game

/-! ### Concrete instances used by witnesses and counterexamples -/

/-- A small concrete board: submarine plus five one-tile spaces. -/
def demo_board : Board :=
  ⟨[{ is_submarine := true },
    { ruins := [⟨1, 2⟩] }, { ruins := [⟨1, 3⟩] }, { ruins := [⟨2, 4⟩] },
    { ruins := [⟨2, 5⟩] }, { ruins := [⟨3, 8⟩] }]⟩

/-- A concrete mid-round game: two players at spaces 1 and 2. -/
def demo_game : Game :=
  { players := [{ name := "A", position := 1 }, { name := "B", position := 2 }]
    num_rounds := 3
    air_per_round := 25
    board := demo_board
    round_number := 1
    air := 25
    current_player_index := 0
    phase := .PLAYING
    emptied_spaces := []
    return_log := []
    next_round_start_index := 0 }

/-- Variant of `demo_game` whose first player is already ascending. -/
def demo_game_back : Game :=
  { demo_game with players :=
      [{ name := "A", position := 3, going_back := true },
       { name := "B", position := 5 }] }

/-- Variant of `demo_game` whose first player has already returned. -/
def demo_game_ret : Game :=
  { demo_game with players :=
      [{ name := "A", has_returned := true },
       { name := "B", position := 2 }] }

/-- Concrete game reaching the descending clamp on an occupied last
space: board of three spaces (last index 2), mover at space 1, the other
player standing on the last space. -/
def cex_game : Game :=
  { demo_game with
    board := ⟨[{ is_submarine := true },
               { ruins := [⟨1, 2⟩] }, { ruins := [⟨1, 3⟩] }]⟩
    players := [{ name := "A", position := 1 }, { name := "B", position := 2 }] }

/-- Concrete in-progress game for the serialization round trip: player 0
is mid-path, ascending, carrying one tile and owning one banked tile. -/
def c2_game : Game :=
  { demo_game with
    players :=
      [{ name := "A", position := 2, going_back := true,
         carrying := [⟨2, 7⟩], score_tiles := [⟨1, 3⟩] },
       { name := "B", position := 4 }]
    air := 13
    round_number := 2
    current_player_index := 1 }

/-- Concrete game with a three-tile stack on the mover's space. -/
def c3_game : Game :=
  { demo_game with
    board := ⟨[{ is_submarine := true },
               { ruins := [⟨1, 2⟩, ⟨2, 5⟩, ⟨3, 10⟩] },
               { ruins := [⟨1, 3⟩] }]⟩
    players := [{ name := "A", position := 1 }, { name := "B", position := 2 }] }

/-- Concrete end-of-round game: air exhausted, player 0 back at the
submarine carrying one tile, player 1 stranded at space 2 carrying two. -/
def c4_game : Game :=
  { demo_game with
    players :=
      [{ name := "A", position := 0, going_back := true, has_returned := true,
         carrying := [⟨1, 2⟩] },
       { name := "B", position := 2, carrying := [⟨2, 4⟩, ⟨3, 9⟩] }]
    air := 0 }

/-- Concrete three-player game: players 0 and 2 have returned. -/
def c10_game : Game :=
  { demo_game with
    players :=
      [{ name := "A", has_returned := true },
       { name := "B", position := 3 },
       { name := "C", has_returned := true }]
    current_player_index := 2 }

/-! ### Helper lemmas -/

theorem le_foldr_max (a : Nat) (l : List Nat) (h : a ∈ l) :
    a ≤ l.foldr max 0 := by
  induction l with
  | nil => simp at h
  | cons c t ih =>
    simp only [List.foldr]
    rcases List.mem_cons.mp h with h | h
    · subst h
      exact Nat.le_max_left _ _
    · exact (ih h).trans (Nat.le_max_right _ _)

theorem foldr_max_mem (l : List Nat) (h : l ≠ []) : l.foldr max 0 ∈ l := by
  induction l with
  | nil => simp at h
  | cons a t ih =>
    simp only [List.foldr]
    rcases Nat.le_total (t.foldr max 0) a with h1 | h1
    · simp [Nat.max_eq_left h1]
    · rcases t with _ | ⟨b, t2⟩
      · simp_all
      · simp only [Nat.max_eq_right h1]
        exact List.mem_cons_of_mem _ (ih (by simp))

theorem natCast_sub_eq_max (a b : Nat) :
    ((a - b : Nat) : Int) = max 0 ((a : Int) - (b : Int)) := by
  rcases Nat.le_total a b with h | h
  · rw [Nat.sub_eq_zero_of_le h, max_eq_left (by omega)]
    rfl
  · rw [max_eq_right (by omega)]
    omega

@[simp] theorem setPlayer_air (g : Game) (i : Nat) (p : Player) :
    (g.setPlayer i p).air = g.air := rfl

@[simp] theorem setPlayer_board (g : Game) (i : Nat) (p : Player) :
    (g.setPlayer i p).board = g.board := rfl

@[simp] theorem setPlayer_round_number (g : Game) (i : Nat) (p : Player) :
    (g.setPlayer i p).round_number = g.round_number := rfl

@[simp] theorem setPlayer_players_length (g : Game) (i : Nat) (p : Player) :
    (g.setPlayer i p).players.length = g.players.length := by
  simp [Game.setPlayer]

@[simp] theorem register_players (g : Game) (i : Nat) :
    (g.register_player_return i).players = g.players := by
  unfold Game.register_player_return
  split <;> rfl

@[simp] theorem register_air (g : Game) (i : Nat) :
    (g.register_player_return i).air = g.air := by
  unfold Game.register_player_return
  split <;> rfl

@[simp] theorem register_board (g : Game) (i : Nat) :
    (g.register_player_return i).board = g.board := by
  unfold Game.register_player_return
  split <;> rfl

@[simp] theorem register_getPlayer (g : Game) (i j : Nat) :
    (g.register_player_return i).getPlayer j = g.getPlayer j := by
  simp [Game.getPlayer, register_players]

theorem getPlayer_setPlayer_self (g : Game) (i : Nat) (p : Player)
    (h : i < g.players.length) : (g.setPlayer i p).getPlayer i = p := by
  simp [Game.getPlayer, Game.setPlayer, List.getD_eq_getElem?_getD,
    List.getElem?_set_self h]

theorem getPlayer_setPlayer_ne (g : Game) (i j : Nat) (p : Player)
    (h : i ≠ j) : (g.setPlayer i p).getPlayer j = g.getPlayer j := by
  simp [Game.getPlayer, Game.setPlayer, List.getD_eq_getElem?_getD,
    List.getElem?_set_ne h]

@[simp] theorem dir_ite_carrying (c : Prop) [Decidable c] (p : Player) :
    (if c then p.start_going_back else p.continue_descending).carrying
      = p.carrying := by
  split <;> rfl

@[simp] theorem dir_ite_carrying_count (c : Prop) [Decidable c] (p : Player) :
    (if c then p.start_going_back else p.continue_descending).carrying_count
      = p.carrying_count := by
  split <;> rfl

@[simp] theorem dir_ite_position (c : Prop) [Decidable c] (p : Player) :
    (if c then p.start_going_back else p.continue_descending).position
      = p.position := by
  split <;> rfl

@[simp] theorem dir_ite_has_returned (c : Prop) [Decidable c] (p : Player) :
    (if c then p.start_going_back else p.continue_descending).has_returned
      = p.has_returned := by
  split <;> rfl

@[simp] theorem dir_ite_score_tiles (c : Prop) [Decidable c] (p : Player) :
    (if c then p.start_going_back else p.continue_descending).score_tiles
      = p.score_tiles := by
  split <;> rfl

/-- `Game.move_player` either leaves the state unchanged (`moves = 0`) or
rewrites player `i` (possibly also logging its return); the rewritten
player keeps the original direction, carried tiles and banked tiles. -/
theorem move_player_shape (g : Game) (i m : Nat) :
    (g.move_player i m).1 = g ∨
      ∃ p', ((g.move_player i m).1 = g.setPlayer i p' ∨
          (g.move_player i m).1 = (g.setPlayer i p').register_player_return i) ∧
        p'.going_back = (g.getPlayer i).going_back ∧
        p'.carrying = (g.getPlayer i).carrying ∧
        p'.score_tiles = (g.getPlayer i).score_tiles := by
  unfold Game.move_player
  by_cases hm : m = 0
  · left
    simp [hm]
  · simp only [hm, if_false]
    by_cases hgb : (g.getPlayer i).going_back = true
    · rw [if_pos hgb]
      rcases hu : move_up_loop (g.others_positions i) (g.getPlayer i).position m
        with ⟨fpos, rb⟩
      cases rb
      all_goals dsimp only
      · by_cases hf : fpos = 0
        · rw [if_pos hf]
          right
          exact ⟨_, Or.inr rfl, rfl, rfl, rfl⟩
        · rw [if_neg hf]
          right
          exact ⟨_, Or.inl rfl, rfl, rfl, rfl⟩
      · right
        exact ⟨_, Or.inr rfl, rfl, rfl, rfl⟩
    · rw [if_neg hgb]
      right
      exact ⟨_, Or.inl rfl, rfl, rfl, rfl⟩

theorem move_player_air (g : Game) (i m : Nat) :
    (g.move_player i m).1.air = g.air := by
  rcases move_player_shape g i m with h | ⟨p', h | h, _⟩ <;> rw [h] <;> simp

theorem move_player_going_back (g : Game) (i m : Nat)
    (hi : i < g.players.length) :
    ((g.move_player i m).1.getPlayer i).going_back
      = (g.getPlayer i).going_back := by
  rcases move_player_shape g i m with h | ⟨p', h | h, hgb, _⟩ <;> rw [h]
  · simp [getPlayer_setPlayer_self _ _ _ hi, hgb]
  · simp [register_getPlayer, getPlayer_setPlayer_self _ _ _ hi, hgb]

theorem flatten_singletons {α : Type} (l : List α) :
    (l.map (fun a => [a])).flatten = l := by
  induction l with
  | nil => rfl
  | cons a t ih => simp [ih]

theorem all_tiles_create_default (mss : Option Nat) (st : Bool)
    (sh1 : Nat → List Nat → List Nat) (sh2 : Nat → List RuinTile → List RuinTile) :
    (Board.create_default mss st sh1 sh2).all_tiles =
      (if st then
        (([1, 2, 3, 4] : List Nat).map (fun lv =>
          sh2 lv ((Board.create_default_tiles sh1).filter
            (fun t => t.level == lv)))).flatten
       else Board.create_default_tiles sh1) := by
  cases st <;>
    simp [Board.create_default, Board.all_tiles, flatten_singletons,
      List.map_map, Function.comp_def]

theorem mem_level_group {sh1 : Nat → List Nat → List Nat} {lv : Nat}
    {t : RuinTile} (h : t ∈ level_group sh1 lv) : t.level = lv := by
  simp only [level_group, List.mem_map] at h
  obtain ⟨v, _, rfl⟩ := h
  rfl

theorem create_default_tiles_eq (sh1 : Nat → List Nat → List Nat) :
    Board.create_default_tiles sh1 =
      level_group sh1 1 ++ (level_group sh1 2 ++
        (level_group sh1 3 ++ level_group sh1 4)) := by
  simp [Board.create_default_tiles, level_group]

theorem filter_level_group (sh1 : Nat → List Nat → List Nat) (k lv : Nat) :
    (level_group sh1 k).filter (fun t => t.level == lv) =
      if k = lv then level_group sh1 k else [] := by
  split
  · next h =>
    subst h
    exact List.filter_eq_self.mpr fun t ht => by simp [mem_level_group ht]
  · next h =>
    refine List.filter_eq_nil_iff.mpr fun t ht => ?_
    simp [mem_level_group ht, h]

theorem filter_create_default_tiles (sh1 : Nat → List Nat → List Nat)
    (lv : Nat) (h1 : lv = 1 ∨ lv = 2 ∨ lv = 3 ∨ lv = 4) :
    (Board.create_default_tiles sh1).filter (fun t => t.level == lv) =
      level_group sh1 lv := by
  rw [create_default_tiles_eq]
  simp only [List.filter_append, filter_level_group]
  rcases h1 with h | h | h | h <;> subst h <;> simp

theorem level_group_perm (sh1 : Nat → List Nat → List Nat)
    (h1 : ∀ lv l, (sh1 lv l).Perm l) (lv : Nat) :
    (level_group sh1 lv).Perm (level_group (fun _ l => l) lv) :=
  (h1 lv _).map _

theorem pairwise_level_grouped (l1 l2 l3 l4 : List RuinTile)
    (m1 : ∀ t ∈ l1, t.level = 1) (m2 : ∀ t ∈ l2, t.level = 2)
    (m3 : ∀ t ∈ l3, t.level = 3) (m4 : ∀ t ∈ l4, t.level = 4) :
    (l1 ++ (l2 ++ (l3 ++ l4))).Pairwise (fun a b => a.level ≤ b.level) := by
  have grp : ∀ (l : List RuinTile) (k : Nat), (∀ t ∈ l, t.level = k) →
      l.Pairwise (fun a b => a.level ≤ b.level) := by
    intro l k hk
    exact List.pairwise_of_forall_mem_list fun a ha b hb => by
      rw [hk a ha, hk b hb]
  simp only [List.pairwise_append]
  refine ⟨grp l1 1 m1, ⟨grp l2 2 m2, ⟨grp l3 3 m3, grp l4 4 m4, ?_⟩, ?_⟩, ?_⟩
  · intro a ha b hb
    rw [m3 a ha, m4 b hb]; omega
  · intro a ha b hb
    rw [m2 a ha]
    rcases List.mem_append.mp hb with h | h
    · rw [m3 b h]; omega
    · rw [m4 b h]; omega
  · intro a ha b hb
    rw [m1 a ha]
    rcases List.mem_append.mp hb with h | h
    · rw [m2 b h]; omega
    rcases List.mem_append.mp h with h | h
    · rw [m3 b h]; omega
    · rw [m4 b h]; omega

/-! ### C1 : canonical tile distribution of `Board.create_default` -/

/-- C1 (counterexample): the claimed "canonical 36-tile distribution
(12/12/8/4 tiles at levels 1–4)" does not match the code: with identity
shuffles, `Board.create_default` deals 8 level-1 tiles (not 12) and 32
tiles in total (not 36). -/
theorem C1_counterexample :
    ((Board.create_default none true (fun _ l => l) (fun _ l => l)).all_tiles.countP
        (fun t => t.level == 1) ≠ 12) ∧
      (Board.create_default none true (fun _ l => l) (fun _ l => l)).all_tiles.length ≠ 36 := by
  decide

/-- C1 (amended): for every board built by `Board.create_default` — any
`max_stack_size`, shuffle flag, and permutation-valued random source —
the multiset of (depth level, value) pairs over all tiles on the board
equals the canonical 32-tile distribution dealt by the source literals:
8 tiles per level, the values 0–3, 4–7, 8–11, 12–15 each appearing twice
at levels 1, 2, 3, 4 respectively. -/
theorem C1_create_default_distribution (mss : Option Nat) (st : Bool)
    (sh1 : Nat → List Nat → List Nat) (sh2 : Nat → List RuinTile → List RuinTile)
    (h1 : ∀ lv l, (sh1 lv l).Perm l) (h2 : ∀ lv l, (sh2 lv l).Perm l) :
    ((Board.create_default mss st sh1 sh2).all_tiles).Perm canonical_tiles := by
  have hg := level_group_perm sh1 h1
  have hcanon : canonical_tiles =
      level_group (fun _ l => l) 1 ++ (level_group (fun _ l => l) 2 ++
        (level_group (fun _ l => l) 3 ++ level_group (fun _ l => l) 4)) :=
    create_default_tiles_eq _
  rw [all_tiles_create_default, hcanon]
  cases st
  · rw [if_neg (by simp), create_default_tiles_eq]
    exact (hg 1).append ((hg 2).append ((hg 3).append (hg 4)))
  · rw [if_pos rfl]
    simp only [List.map_cons, List.map_nil, List.flatten_cons, List.flatten_nil,
      List.append_nil]
    rw [filter_create_default_tiles sh1 1 (by omega),
      filter_create_default_tiles sh1 2 (by omega),
      filter_create_default_tiles sh1 3 (by omega),
      filter_create_default_tiles sh1 4 (by omega)]
    exact ((h2 1 _).trans (hg 1)).append (((h2 2 _).trans (hg 2)).append
      (((h2 3 _).trans (hg 3)).append ((h2 4 _).trans (hg 4))))

/-- C1 (witness): the amended theorem applied to identity shuffles. -/
theorem C1_witness :
    ((Board.create_default none true (fun _ l => l) (fun _ l => l)).all_tiles).Perm
      canonical_tiles :=
  C1_create_default_distribution none true (fun _ l => l) (fun _ l => l)
    (fun _ _ => List.Perm.refl _) (fun _ _ => List.Perm.refl _)

/-! ### C9 : depth levels non-decreasing along the path -/

/-- C9: for every board built by `Board.create_default` (with or without
shuffling, for any permutation-valued random source), depth levels are
non-decreasing along the path past the submarine: for spaces `i < j`
(both after index 0), every tile on space `i` has level ≤ every tile on
space `j`. -/
theorem C9_levels_non_decreasing (mss : Option Nat) (st : Bool)
    (sh1 : Nat → List Nat → List Nat) (sh2 : Nat → List RuinTile → List RuinTile)
    (h1 : ∀ lv l, (sh1 lv l).Perm l) (h2 : ∀ lv l, (sh2 lv l).Perm l) :
    ((Board.create_default mss st sh1 sh2).spaces.drop 1).Pairwise
      (fun s1 s2 => ∀ t1 ∈ s1.ruins, ∀ t2 ∈ s2.ruins, t1.level ≤ t2.level) := by
  have key : ∀ tiles : List RuinTile,
      tiles.Pairwise (fun a b => a.level ≤ b.level) →
      ((tiles.map (fun t =>
        ({ is_submarine := false, ruins := [t], max_stack_size := mss } : Space))).Pairwise
        (fun s1 s2 => ∀ t1 ∈ s1.ruins, ∀ t2 ∈ s2.ruins, t1.level ≤ t2.level)) := by
    intro tiles htp
    rw [List.pairwise_map]
    refine htp.imp ?_
    intro a b hab
    simp only [List.mem_singleton]
    rintro t1 rfl t2 rfl
    exact hab
  have memsh2 : ∀ lv t, t ∈ sh2 lv ((Board.create_default_tiles sh1).filter
      (fun x => x.level == lv)) → t.level = lv := by
    intro lv t ht
    have := (h2 lv _).mem_iff.mp ht
    have := List.of_mem_filter this
    simpa using this
  cases st <;>
    simp only [Board.create_default, Bool.false_eq_true, if_false, if_true,
      List.drop_succ_cons, List.drop_zero, List.map_cons, List.map_nil,
      List.flatten_cons, List.flatten_nil, List.append_nil]
  · -- shuffle_tiles = false
    apply key
    rw [create_default_tiles_eq]
    exact pairwise_level_grouped _ _ _ _
      (fun t ht => mem_level_group ht) (fun t ht => mem_level_group ht)
      (fun t ht => mem_level_group ht) (fun t ht => mem_level_group ht)
  · -- shuffle_tiles = true
    apply key
    exact pairwise_level_grouped _ _ _ _
      (fun t ht => memsh2 1 t ht) (fun t ht => memsh2 2 t ht)
      (fun t ht => memsh2 3 t ht) (fun t ht => memsh2 4 t ht)

/-- C9 (witness): the theorem applied to identity shuffles. -/
theorem C9_witness :
    ((Board.create_default none true (fun _ l => l) (fun _ l => l)).spaces.drop 1).Pairwise
      (fun s1 s2 => ∀ t1 ∈ s1.ruins, ∀ t2 ∈ s2.ruins, t1.level ≤ t2.level) :=
  C9_levels_non_decreasing none true (fun _ l => l) (fun _ l => l)
    (fun _ _ => List.Perm.refl _) (fun _ _ => List.Perm.refl _)

/-! ### C5 : air cost and movement distance of `begin_turn` -/

/-- C5: for every `begin_turn` call on a player who has not returned,
with `c` the player's carried-tile count at turn start, the reported
air-after equals air-before minus `c` (and the game's air is updated the
same way, before movement), and the reported movement distance equals
`max 0 (roll − c)`. -/
theorem C5_begin_turn_air_move (g : Game) (i : Nat) (gb : Bool) (roll : Nat)
    (hi : i < g.players.length)
    (hr : (g.getPlayer i).has_returned = false) :
    ∃ tr : TurnResult,
      (g.begin_turn i gb roll).2 = .ok tr ∧
      tr.air_before = g.air ∧
      tr.air_after = g.air - ((g.getPlayer i).carrying_count : Int) ∧
      (g.begin_turn i gb roll).1.air
        = g.air - ((g.getPlayer i).carrying_count : Int) ∧
      (tr.move_distance : Int)
        = max 0 ((roll : Int) - ((g.getPlayer i).carrying_count : Int)) := by
  unfold Game.begin_turn
  rw [if_neg (by simp [hr])]
  refine ⟨_, rfl, rfl, ?_, ?_, ?_⟩
  · simp
  · rw [move_player_air]
    simp
  · simp [natCast_sub_eq_max]

/-- C5 (witness): applied to `demo_game`, player 0 rolling 3. -/
theorem C5_witness :
    ∃ tr : TurnResult,
      (demo_game.begin_turn 0 false 3).2 = .ok tr ∧
      tr.air_before = demo_game.air ∧
      tr.air_after = demo_game.air - ((demo_game.getPlayer 0).carrying_count : Int) ∧
      (demo_game.begin_turn 0 false 3).1.air
        = demo_game.air - ((demo_game.getPlayer 0).carrying_count : Int) ∧
      (tr.move_distance : Int)
        = max 0 ((3 : Int) - ((demo_game.getPlayer 0).carrying_count : Int)) :=
  C5_begin_turn_air_move demo_game 0 false 3 (by decide) (by decide)

/-! ### C7 : ascending is a one-way ratchet -/

/-- C7: once a player's direction is ascending, a `begin_turn` call for
that player leaves it ascending regardless of the `going_back` argument
(whether the call succeeds or errors). -/
theorem C7_direction_ratchet (g : Game) (i : Nat) (gb : Bool) (roll : Nat)
    (hi : i < g.players.length)
    (hgb : (g.getPlayer i).going_back = true) :
    ((g.begin_turn i gb roll).1.getPlayer i).going_back = true := by
  unfold Game.begin_turn
  by_cases hr : (g.getPlayer i).has_returned = true
  · rw [if_pos hr]
    exact hgb
  · rw [if_neg hr]
    simp only [hgb, if_true]
    rw [move_player_going_back _ _ _ (by simp [hi])]
    rw [show (({ g.setPlayer i ((g.getPlayer i).start_going_back) with
        air := (g.setPlayer i ((g.getPlayer i).start_going_back)).air -
          (((g.getPlayer i).start_going_back).carrying_count : Int) } : Game).getPlayer i)
      = (g.setPlayer i ((g.getPlayer i).start_going_back)).getPlayer i from rfl]
    rw [getPlayer_setPlayer_self _ _ _ hi]
    rfl

/-- C7 (witness): applied to `demo_game_back`, player 0 asking to descend. -/
theorem C7_witness :
    ((demo_game_back.begin_turn 0 false 2).1.getPlayer 0).going_back = true :=
  C7_direction_ratchet demo_game_back 0 false 2 (by decide) (by decide)

/-! ### C8 : begin_turn on a returned player fails without mutation -/

/-- C8: `begin_turn` invoked on a player whose `has_returned` flag is
true yields the invalid-state error and returns the entire game state
unchanged. -/
theorem C8_begin_turn_returned_no_mutation (g : Game) (i : Nat) (gb : Bool)
    (roll : Nat) (hr : (g.getPlayer i).has_returned = true) :
    (g.begin_turn i gb roll).1 = g ∧
      ∃ e, (g.begin_turn i gb roll).2 = .error e := by
  unfold Game.begin_turn
  rw [if_pos hr]
  exact ⟨rfl, _, rfl⟩

/-- C8 (witness): applied to `demo_game_ret`, player 0. -/
theorem C8_witness :
    (demo_game_ret.begin_turn 0 true 2).1 = demo_game_ret ∧
      ∃ e, (demo_game_ret.begin_turn 0 true 2).2 = .error e :=
  C8_begin_turn_returned_no_mutation demo_game_ret 0 true 2 (by decide)

/-! ### C2 : serialization round trip -/

/-- C2: the serialize → deserialize round trip does **not** reproduce the
game state.  On `c2_game` the scalar fields and the board survive, but
`Game.from_dict` routes the deserialized players through `__init__`,
whose `_reset_all_players_for_new_game` wipes position, direction,
carried and banked tiles: player 0 comes back at position 0, descending,
carrying nothing and with an empty banked list. -/
theorem C2_roundtrip_loses_player_state :
    ((Game.from_dict c2_game.to_dict demo_board).round_number
        = c2_game.round_number ∧
      (Game.from_dict c2_game.to_dict demo_board).air = c2_game.air ∧
      (Game.from_dict c2_game.to_dict demo_board).current_player_index
        = c2_game.current_player_index ∧
      (Game.from_dict c2_game.to_dict demo_board).board = c2_game.board) ∧
    ((Game.from_dict c2_game.to_dict demo_board).getPlayer 0).position = 0 ∧
    (c2_game.getPlayer 0).position = 2 ∧
    ((Game.from_dict c2_game.to_dict demo_board).getPlayer 0).carrying = [] ∧
    (c2_game.getPlayer 0).carrying = [⟨2, 7⟩] ∧
    ((Game.from_dict c2_game.to_dict demo_board).getPlayer 0).score_tiles = [] ∧
    (c2_game.getPlayer 0).score_tiles = [⟨1, 3⟩] ∧
    ((Game.from_dict c2_game.to_dict demo_board).getPlayer 0).going_back = false ∧
    (c2_game.getPlayer 0).going_back = true := by
  decide

/-! ### C3 : pickup collapses the whole stack -/

/-- C3: `perform_action(player, "B")` with the player off the submarine
on a space holding at least one tile removes the whole stack, returns a
single combined tile whose value is the sum of the stack's values and
whose depth level is the maximum level in the stack, and appends that
tile to the player's carried list. -/
theorem C3_pickup_collapses_stack (g : Game) (i : Nat)
    (hi : i < g.players.length)
    (hsub : (g.getPlayer i).is_on_submarine = false)
    (hpos : (g.getPlayer i).position < g.board.spaces.length)
    (hr : (g.board.get_space (g.getPlayer i).position).ruins ≠ []) :
    ∃ t : RuinTile,
      (g.perform_action i "B").2 = some t ∧
      t.value
        = ((g.board.get_space (g.getPlayer i).position).ruins.map RuinTile.value).sum ∧
      (∀ u ∈ (g.board.get_space (g.getPlayer i).position).ruins, u.level ≤ t.level) ∧
      (∃ u ∈ (g.board.get_space (g.getPlayer i).position).ruins, u.level = t.level) ∧
      ((g.perform_action i "B").1.getPlayer i).carrying
        = (g.getPlayer i).carrying ++ [t] ∧
      ((g.perform_action i "B").1.board.get_space (g.getPlayer i).position).ruins
        = [] := by
  have hpop : (g.board.get_space (g.getPlayer i).position).pop_all_ruins_as_single
      = (some { level := ((g.board.get_space (g.getPlayer i).position).ruins.map
                  RuinTile.level).foldr max 0,
                value := ((g.board.get_space (g.getPlayer i).position).ruins.map
                  RuinTile.value).sum },
         { g.board.get_space (g.getPlayer i).position with ruins := [] }) := by
    unfold Space.pop_all_ruins_as_single
    rw [if_neg (by simpa using hr)]
  unfold Game.perform_action
  rw [if_neg (by simp [hsub])]
  rw [if_neg (by decide), if_pos (by decide)]
  rw [if_neg (by simp [Space.has_ruin, hr])]
  rw [hpop]
  dsimp only
  rw [if_pos (by simp [Space.has_ruin])]
  refine ⟨{ level := ((g.board.get_space (g.getPlayer i).position).ruins.map
              RuinTile.level).foldr max 0,
            value := ((g.board.get_space (g.getPlayer i).position).ruins.map
              RuinTile.value).sum }, rfl, rfl, ?_, ?_, ?_, ?_⟩
  · intro u hu
    exact le_foldr_max _ _ (List.mem_map_of_mem _ hu)
  · have hm := foldr_max_mem ((g.board.get_space (g.getPlayer i).position).ruins.map
      RuinTile.level) (by simpa using hr)
    rcases List.mem_map.mp hm with ⟨u, hu, hlev⟩
    exact ⟨u, hu, hlev⟩
  · split <;> exact congrArg Player.carrying (getPlayer_setPlayer_self _ _ _ hi)
  · have hgs : ∀ s2 : Space,
        ((Board.mk (g.board.spaces.set (g.getPlayer i).position s2)).get_space
          ((g.getPlayer i).position)).ruins = s2.ruins := by
      intro s2
      simp [Board.get_space, List.getD_eq_getElem?_getD,
        List.getElem?_set_self hpos]
    split <;> exact hgs _

/-! ### C6 : skip-on-occupied movement -/

theorem move_down_loop_skip (last : Nat) (others : List Nat) (pos steps : Nat)
    (hs : steps ≠ 0) (hb : pos + 1 ≤ last) (ho : pos + 1 ∈ others) :
    move_down_loop last others pos steps
      = move_down_loop last others (pos + 1) steps := by
  rw [move_down_loop]
  rw [if_neg hs]
  dsimp only
  rw [if_neg (by omega), if_pos ho]

theorem move_up_loop_skip (others : List Nat) (pos steps : Nat)
    (hs : steps ≠ 0) (hb : 2 ≤ pos) (ho : pos - 1 ∈ others) :
    move_up_loop others pos steps = move_up_loop others (pos - 1) steps := by
  rw [move_up_loop]
  rw [if_neg hs, if_neg (by omega)]
  dsimp only
  rw [if_pos ho]

theorem move_down_loop_endpoint_aux (last : Nat) (others : List Nat) :
    ∀ d pos steps, last - pos ≤ d → 0 < steps →
      move_down_loop last others pos steps = last ∨
        move_down_loop last others pos steps ∉ others := by
  intro d
  induction d with
  | zero =>
    intro pos steps hd hs
    rw [move_down_loop, if_neg (by omega)]
    dsimp only
    rw [if_pos (by omega)]
    exact Or.inl rfl
  | succ d ih =>
    intro pos steps hd hs
    rw [move_down_loop, if_neg (by omega)]
    dsimp only
    by_cases hb : pos + 1 > last
    · rw [if_pos hb]
      exact Or.inl rfl
    · rw [if_neg hb]
      by_cases ho : pos + 1 ∈ others
      · rw [if_pos ho]
        exact ih (pos + 1) steps (by omega) hs
      · rw [if_neg ho]
        rcases Nat.eq_zero_or_pos (steps - 1) with h1 | h1
        · rw [h1, move_down_loop, if_pos rfl]
          exact Or.inr ho
        · exact ih (pos + 1) (steps - 1) (by omega) h1

theorem move_down_loop_endpoint (last : Nat) (others : List Nat)
    (pos steps : Nat) (hs : 0 < steps) :
    move_down_loop last others pos steps = last ∨
      move_down_loop last others pos steps ∉ others :=
  move_down_loop_endpoint_aux last others (last - pos) pos steps le_rfl hs

theorem move_up_loop_endpoint_aux (others : List Nat) :
    ∀ d pos steps, pos ≤ d → 0 < steps →
      ((move_up_loop others pos steps).2 = true ∧
        (move_up_loop others pos steps).1 = 0) ∨
      ((move_up_loop others pos steps).2 = false ∧
        (move_up_loop others pos steps).1 ∉ others) := by
  intro d
  induction d with
  | zero =>
    intro pos steps hd hs
    rw [move_up_loop, if_neg (by omega), if_pos (by omega)]
    exact Or.inl ⟨rfl, rfl⟩
  | succ d ih =>
    intro pos steps hd hs
    rw [move_up_loop, if_neg (by omega)]
    by_cases hp : pos ≤ 1
    · rw [if_pos hp]
      exact Or.inl ⟨rfl, rfl⟩
    · rw [if_neg hp]
      dsimp only
      by_cases ho : pos - 1 ∈ others
      · rw [if_pos ho]
        exact ih (pos - 1) steps (by omega) hs
      · rw [if_neg ho]
        rcases Nat.eq_zero_or_pos (steps - 1) with h1 | h1
        · rw [h1, move_up_loop, if_pos rfl]
          exact Or.inr ⟨rfl, ho⟩
        · exact ih (pos - 1) (steps - 1) (by omega) h1

theorem move_up_loop_endpoint (others : List Nat) (pos steps : Nat)
    (hs : 0 < steps) :
    ((move_up_loop others pos steps).2 = true ∧
      (move_up_loop others pos steps).1 = 0) ∨
    ((move_up_loop others pos steps).2 = false ∧
      (move_up_loop others pos steps).1 ∉ others) :=
  move_up_loop_endpoint_aux others pos pos steps le_rfl hs

/-- C6 (counterexample to the claim as stated): in `cex_game` player 1
stands on the last space (index 2); player 0 at space 1 descends with an
effective move of 1, skips the occupied space without consuming a step,
is clamped back to the last space, and so ends its movement standing on
a space occupied by another diver. -/
theorem C6_counterexample :
    ((cex_game.move_player 0 1).1.getPlayer 0).position = 2 ∧
    (cex_game.getPlayer 1).position = 2 ∧
    ((cex_game.move_player 0 1).1.getPlayer 0).position ≠ 0 := by
  refine ⟨?_, by decide, ?_⟩ <;>
    simp [Game.move_player, Game.others_positions, Game.getPlayer, Game.setPlayer,
      cex_game, demo_game, Board.last_index, move_down_loop]

/-- C6 (amended): during movement, a space occupied by another diver is
passed through without consuming a movement step, and the diver never
ends its movement standing on an occupied space **except** when it
returns to the submarine (index 0) or when a descending move is clamped
at the board's last space. -/
theorem C6_skip_on_occupied :
    (∀ last others pos steps, steps ≠ 0 → pos + 1 ≤ last → pos + 1 ∈ others →
      move_down_loop last others pos steps
        = move_down_loop last others (pos + 1) steps) ∧
    (∀ others pos steps, steps ≠ 0 → 2 ≤ pos → pos - 1 ∈ others →
      move_up_loop others pos steps = move_up_loop others (pos - 1) steps) ∧
    (∀ (g : Game) (i moves : Nat), i < g.players.length → 0 < moves →
      ((g.move_player i moves).1.getPlayer i).position = 0 ∨
      ((g.move_player i moves).1.getPlayer i).position = g.board.last_index ∨
      ((g.move_player i moves).1.getPlayer i).position ∉ g.others_positions i) := by
  refine ⟨move_down_loop_skip, move_up_loop_skip, ?_⟩
  intro g i moves hi hm
  unfold Game.move_player
  rw [if_neg (by omega)]
  by_cases hgb : (g.getPlayer i).going_back = true
  · rw [if_pos hgb]
    rcases hu : move_up_loop (g.others_positions i) (g.getPlayer i).position moves
      with ⟨fpos, rb⟩
    have hep := move_up_loop_endpoint (g.others_positions i)
      (g.getPlayer i).position moves hm
    rw [hu] at hep
    cases rb
    all_goals dsimp only
    · rcases hep with ⟨h2, _⟩ | ⟨_, h1⟩
      · exact absurd h2 (by simp)
      · dsimp only at h1
        by_cases hf : fpos = 0
        · rw [if_pos hf]
          left
          rw [register_getPlayer, getPlayer_setPlayer_self _ _ _ hi]
          rfl
        · rw [if_neg hf]
          right; right
          rw [getPlayer_setPlayer_self _ _ _ hi]
          exact h1
    · left
      rw [register_getPlayer, getPlayer_setPlayer_self _ _ _ hi]
      rfl
  · rw [if_neg hgb]
    rcases move_down_loop_endpoint g.board.last_index (g.others_positions i)
      (g.getPlayer i).position moves hm with h | h
    · right; left
      rw [getPlayer_setPlayer_self _ _ _ hi]
      exact h
    · right; right
      rw [getPlayer_setPlayer_self _ _ _ hi]
      exact h

/-- C6 (witness): the amended theorem's three components at concrete
inputs: a skipped descent, a skipped ascent, and a full move of player 0
in `demo_game`. -/
theorem C6_witness :
    move_down_loop 5 [2] 1 2 = move_down_loop 5 [2] 2 2 ∧
    move_up_loop [2] 3 2 = move_up_loop [2] 2 2 ∧
    (((demo_game.move_player 0 2).1.getPlayer 0).position = 0 ∨
      ((demo_game.move_player 0 2).1.getPlayer 0).position
        = demo_game.board.last_index ∨
      ((demo_game.move_player 0 2).1.getPlayer 0).position
        ∉ demo_game.others_positions 0) :=
  ⟨C6_skip_on_occupied.1 5 [2] 1 2 (by decide) (by decide) (by decide),
   C6_skip_on_occupied.2.1 [2] 3 2 (by decide) (by decide) (by decide),
   C6_skip_on_occupied.2.2 demo_game 0 2 (by decide) (by decide)⟩

/-! ### C10 : advance_to_next_player -/

theorem advance_loop_all_returned (g : Game)
    (hall : ∀ j < g.players.length, (g.getPlayer j).has_returned = true)
    (hpos : 0 < g.players.length) :
    ∀ k idx, g.advance_loop k idx
      = if k = 0 then idx else (idx + k) % g.players.length := by
  intro k
  induction k with
  | zero => intro idx; simp [Game.advance_loop]
  | succ k ih =>
    intro idx
    rw [Game.advance_loop]
    have hret : (g.getPlayer ((idx + 1) % g.players.length)).has_returned = true :=
      hall _ (Nat.mod_lt _ hpos)
    rw [if_pos hret, ih]
    rcases Nat.eq_zero_or_pos k with hk | hk
    · subst hk
      simp
    · rw [if_neg (by omega), if_neg (by omega), Nat.mod_add_mod]
      congr 1
      omega

theorem advance_loop_finds (g : Game) (idx0 k0 : Nat)
    (hk0 : 1 ≤ k0) (hk0n : k0 ≤ g.players.length)
    (hnotret : (g.getPlayer ((idx0 + k0) % g.players.length)).has_returned = false)
    (hmin : ∀ m, 1 ≤ m → m < k0 →
      (g.getPlayer ((idx0 + m) % g.players.length)).has_returned = true) :
    ∀ remaining c, c + remaining = g.players.length → c < k0 →
      g.advance_loop remaining ((idx0 + c) % g.players.length)
        = (idx0 + k0) % g.players.length := by
  intro remaining
  induction remaining with
  | zero =>
    intro c hc hck
    omega
  | succ r ih =>
    intro c hc hck
    rw [Game.advance_loop]
    have hidx2 : ((idx0 + c) % g.players.length + 1) % g.players.length
        = (idx0 + (c + 1)) % g.players.length := by
      rw [Nat.mod_add_mod, Nat.add_assoc]
    by_cases hc1 : c + 1 = k0
    · rw [show (g.advance_loop r (((idx0 + c) % g.players.length + 1) % g.players.length))
        = g.advance_loop r ((idx0 + (c + 1)) % g.players.length) from by rw [hidx2]]
      rw [if_neg (by rw [hidx2, hc1, hnotret]; simp)]
      rw [hidx2, hc1]
    · have hlt : c + 1 < k0 := by omega
      have hret := hmin (c + 1) (by omega) hlt
      rw [show (g.advance_loop r (((idx0 + c) % g.players.length + 1) % g.players.length))
        = g.advance_loop r ((idx0 + (c + 1)) % g.players.length) from by rw [hidx2]]
      rw [if_pos (by rw [hidx2]; exact hret)]
      exact ih (c + 1) (by omega) hlt

/-- C10: `advance_to_next_player` moves `current_player_index` to the
cyclically next index whose player has not returned (searching at most
one full cycle), and leaves it unchanged when every player has
returned. -/
theorem C10_advance_to_next_player (g : Game)
    (hn : g.current_player_index < g.players.length) :
    ((∀ j < g.players.length, (g.getPlayer j).has_returned = true) →
      g.advance_to_next_player.current_player_index = g.current_player_index) ∧
    ((∃ j, j < g.players.length ∧ (g.getPlayer j).has_returned = false) →
      ∃ k, 1 ≤ k ∧ k ≤ g.players.length ∧
        g.advance_to_next_player.current_player_index
          = (g.current_player_index + k) % g.players.length ∧
        (g.getPlayer ((g.current_player_index + k) % g.players.length)).has_returned
          = false ∧
        ∀ m, 1 ≤ m → m < k →
          (g.getPlayer ((g.current_player_index + m) % g.players.length)).has_returned
            = true) := by
  have hpos : 0 < g.players.length := Nat.lt_of_le_of_lt (Nat.zero_le _) hn
  constructor
  · intro hall
    show g.advance_loop g.players.length g.current_player_index = _
    rw [advance_loop_all_returned g hall hpos _ _, if_neg (by omega),
      Nat.add_mod_right, Nat.mod_eq_of_lt hn]
  · rintro ⟨j, hj, hjret⟩
    have hex : ∃ k, 1 ≤ k ∧ k ≤ g.players.length ∧
        (g.getPlayer ((g.current_player_index + k) % g.players.length)).has_returned
          = false := by
      refine ⟨if g.current_player_index < j then j - g.current_player_index
        else g.players.length + j - g.current_player_index, ?_, ?_, ?_⟩
      · split <;> omega
      · split <;> omega
      · split
        · next h =>
          rw [show g.current_player_index + (j - g.current_player_index) = j by omega,
            Nat.mod_eq_of_lt hj]
          exact hjret
        · next h =>
          rw [show g.current_player_index +
              (g.players.length + j - g.current_player_index)
              = j + 1 * g.players.length by omega,
            Nat.add_mul_mod_self_right, Nat.mod_eq_of_lt hj]
          exact hjret
    classical
    let k0 := Nat.find hex
    have hk0 := Nat.find_spec hex
    refine ⟨k0, hk0.1, hk0.2.1, ?_, hk0.2.2, ?_⟩
    · show g.advance_loop g.players.length g.current_player_index = _
      have := advance_loop_finds g g.current_player_index k0 hk0.1 hk0.2.1 hk0.2.2
        (fun m hm1 hmk => ?_) g.players.length 0 (by omega) (by omega)
      · rw [Nat.add_zero, Nat.mod_eq_of_lt hn] at this
        exact this
      · by_contra hb
        have hfalse : (g.getPlayer ((g.current_player_index + m)
            % g.players.length)).has_returned = false := by
          cases hx : (g.getPlayer ((g.current_player_index + m)
              % g.players.length)).has_returned
          · rfl
          · exact absurd hx hb
        exact Nat.find_min hex hmk ⟨hm1, by omega, hfalse⟩
    · intro m hm1 hmk
      by_contra hb
      have hfalse : (g.getPlayer ((g.current_player_index + m)
          % g.players.length)).has_returned = false := by
        cases hx : (g.getPlayer ((g.current_player_index + m)
            % g.players.length)).has_returned
        · rfl
        · exact absurd hx hb
      exact Nat.find_min hex hmk ⟨hm1, by omega, hfalse⟩

/-- C10 (witness): applied to `c10_game` (current index 2, players 0 and
2 returned, player 1 active). -/
theorem C10_witness :
    ((∀ j < c10_game.players.length,
        (c10_game.getPlayer j).has_returned = true) →
      c10_game.advance_to_next_player.current_player_index
        = c10_game.current_player_index) ∧
    ((∃ j, j < c10_game.players.length ∧
        (c10_game.getPlayer j).has_returned = false) →
      ∃ k, 1 ≤ k ∧ k ≤ c10_game.players.length ∧
        c10_game.advance_to_next_player.current_player_index
          = (c10_game.current_player_index + k) % c10_game.players.length ∧
        (c10_game.getPlayer ((c10_game.current_player_index + k)
          % c10_game.players.length)).has_returned = false ∧
        ∀ m, 1 ≤ m → m < k →
          (c10_game.getPlayer ((c10_game.current_player_index + m)
            % c10_game.players.length)).has_returned = true) :=
  C10_advance_to_next_player c10_game (by decide)

/-! ### C4 : end of round by air exhaustion -/

theorem getD_set_self {α : Type} (l : List α) (i : Nat) (a d : α)
    (h : i < l.length) : (l.set i a).getD i d = a := by
  simp [List.getD_eq_getElem?_getD, List.getElem?_set_self h]

theorem getD_set_ne {α : Type} (l : List α) (i j : Nat) (a d : α)
    (h : i ≠ j) : (l.set i a).getD j d = l.getD j d := by
  simp [List.getD_eq_getElem?_getD, List.getElem?_set_ne h]

theorem insert_desc_perm (key : Nat → Nat) (i : Nat) (l : List Nat) :
    (insert_desc key i l).Perm (i :: l) := by
  induction l with
  | nil => exact List.Perm.refl _
  | cons j rest ih =>
    rw [insert_desc]
    by_cases hk : key j ≤ key i
    · rw [if_pos hk]
    · rw [if_neg hk]
      exact (List.Perm.cons j ih).trans (List.Perm.swap i j rest)

theorem sort_desc_perm (key : Nat → Nat) (l : List Nat) :
    (sort_desc key l).Perm l := by
  induction l with
  | nil => exact List.Perm.refl _
  | cons i rest ih =>
    rw [sort_desc]
    exact (insert_desc_perm key i (sort_desc key rest)).trans (List.Perm.cons i ih)

theorem insert_desc_sorted (key : Nat → Nat) (i : Nat) (l : List Nat)
    (h : l.Pairwise (fun a b => key b ≤ key a)) :
    (insert_desc key i l).Pairwise (fun a b => key b ≤ key a) := by
  induction l with
  | nil => simp [insert_desc]
  | cons j rest ih =>
    rw [insert_desc]
    rcases List.pairwise_cons.mp h with ⟨hj, hrest⟩
    by_cases hk : key j ≤ key i
    · rw [if_pos hk]
      refine List.pairwise_cons.mpr ⟨?_, h⟩
      intro b hb
      rcases List.mem_cons.mp hb with rfl | hb
      · exact hk
      · exact (hj b hb).trans hk
    · rw [if_neg hk]
      refine List.pairwise_cons.mpr ⟨?_, ih hrest⟩
      intro b hb
      have hb2 := (insert_desc_perm key i rest).mem_iff.mp hb
      rcases List.mem_cons.mp hb2 with rfl | hb2
      · omega
      · exact hj b hb2

theorem sort_desc_sorted (key : Nat → Nat) (l : List Nat) :
    (sort_desc key l).Pairwise (fun a b => key b ≤ key a) := by
  induction l with
  | nil => simp [sort_desc]
  | cons i rest ih =>
    rw [sort_desc]
    exact insert_desc_sorted key i _ ih

/-- Effect of folding `end_round_drain_step` over a duplicate-free list of
in-range player indices: the dropped-tile accumulator collects, in
iteration order, the LIFO-popped carried tiles of every non-submarine
player, and each visited player is either secured (on the submarine) or
stripped of its carried tiles. -/
theorem end_round_drain_fold (l : List Nat) :
    ∀ (ps : List Player) (acc : List RuinTile),
      l.Nodup → (∀ j ∈ l, j < ps.length) →
      ((l.foldl Game.end_round_drain_step (ps, acc)).2
        = acc ++ (l.map (fun j =>
            if (ps.getD j default_player).is_on_submarine then []
            else pop_lifo (ps.getD j default_player).carrying)).flatten) ∧
      (l.foldl Game.end_round_drain_step (ps, acc)).1.length = ps.length ∧
      (∀ j, j ∉ l →
        (l.foldl Game.end_round_drain_step (ps, acc)).1.getD j default_player
          = ps.getD j default_player) ∧
      (∀ j ∈ l,
        (l.foldl Game.end_round_drain_step (ps, acc)).1.getD j default_player
          = (if (ps.getD j default_player).is_on_submarine
             then (ps.getD j default_player).secure_carried_treasures
             else (ps.getD j default_player).drop_all_carrying)) := by
  induction l with
  | nil => intro ps acc _ _; simp
  | cons j0 rest ih =>
    intro ps acc hnd hbound
    have hj0 : j0 < ps.length := hbound j0 (by simp)
    have hj0r : j0 ∉ rest := (List.nodup_cons.mp hnd).1
    have hndr : rest.Nodup := (List.nodup_cons.mp hnd).2
    rw [List.foldl_cons]
    have hstep : Game.end_round_drain_step (ps, acc) j0
        = (ps.set j0 (if (ps.getD j0 default_player).is_on_submarine
              then (ps.getD j0 default_player).secure_carried_treasures
              else (ps.getD j0 default_player).drop_all_carrying),
           acc ++ (if (ps.getD j0 default_player).is_on_submarine then []
              else pop_lifo (ps.getD j0 default_player).carrying)) := by
      unfold Game.end_round_drain_step
      dsimp only
      by_cases hsub : (ps.getD j0 default_player).is_on_submarine = true
      · rw [if_pos hsub, if_pos hsub, if_pos hsub]
        simp
      · rw [if_neg hsub, if_neg hsub, if_neg hsub]
    rw [hstep]
    obtain ⟨ihdrop, ihlen, ihout, ihin⟩ := ih
      (ps.set j0 (if (ps.getD j0 default_player).is_on_submarine
        then (ps.getD j0 default_player).secure_carried_treasures
        else (ps.getD j0 default_player).drop_all_carrying))
      (acc ++ (if (ps.getD j0 default_player).is_on_submarine then []
        else pop_lifo (ps.getD j0 default_player).carrying))
      hndr (fun j hj => by
        rw [List.length_set]
        exact hbound j (List.mem_cons_of_mem _ hj))
    have hsame : ∀ j ∈ rest,
        ((ps.set j0 (if (ps.getD j0 default_player).is_on_submarine
          then (ps.getD j0 default_player).secure_carried_treasures
          else (ps.getD j0 default_player).drop_all_carrying)).getD j default_player)
        = ps.getD j default_player := fun j hj =>
      getD_set_ne _ _ _ _ _ (fun he => hj0r (he ▸ hj))
    refine ⟨?_, ?_, ?_, ?_⟩
    · rw [ihdrop, List.map_cons, List.flatten_cons, List.append_assoc]
      congr 1
      congr 1
      exact congrArg List.flatten
        (List.map_congr_left (fun j hj => by rw [hsame j hj]))
    · rw [ihlen, List.length_set]
    · intro j hj
      have hj1 : j ≠ j0 := fun he => hj (he ▸ List.mem_cons_self j0 rest)
      have hj2 : j ∉ rest := fun hc => hj (List.mem_cons_of_mem _ hc)
      rw [ihout j hj2, getD_set_ne _ _ _ _ _ (fun he => hj1 he.symm)]
    · intro j hj
      rcases List.mem_cons.mp hj with rfl | hj
      · rw [ihout j hj0r, getD_set_self _ _ _ _ hj0]
      · rw [ihin j hj, hsame j hj]

theorem drop_loop_spec (stack_size : Nat) (hs : stack_size ≠ 0) :
    ∀ (tiles cur : List RuinTile), cur.length < stack_size →
      (((Board.drop_loop stack_size cur tiles).map Space.ruins).flatten
        = cur ++ tiles) ∧
      (∀ s ∈ Board.drop_loop stack_size cur tiles,
        s.ruins.length ≤ stack_size ∧ s.ruins ≠ []) := by
  intro tiles
  induction tiles with
  | nil =>
    intro cur hcur
    simp only [Board.drop_loop]
    by_cases hc : cur.isEmpty = true
    · rw [if_pos hc]
      simp [List.isEmpty_iff.mp hc]
    · rw [if_neg hc]
      refine ⟨by simp, ?_⟩
      intro s hsmem
      rw [List.mem_singleton] at hsmem
      subst hsmem
      refine ⟨show cur.length ≤ stack_size by omega, ?_⟩
      show cur ≠ []
      intro he
      exact hc (by simp [he])
  | cons t ts ih =>
    intro cur hcur
    simp only [Board.drop_loop]
    by_cases hfull : ((cur ++ [t]).length == stack_size) = true
    · rw [if_pos hfull]
      have hfe : (cur ++ [t]).length = stack_size := by simpa using hfull
      obtain ⟨ih1, ih2⟩ := ih [] (by simpa using Nat.pos_of_ne_zero hs)
      refine ⟨?_, ?_⟩
      · rw [List.map_cons, List.flatten_cons, ih1]
        simp
      · intro s hsmem
        rcases List.mem_cons.mp hsmem with rfl | hsmem
        · exact ⟨show (cur ++ [t]).length ≤ stack_size by omega,
            show cur ++ [t] ≠ [] by simp⟩
        · exact ih2 s hsmem
    · rw [if_neg hfull]
      have hne2 : (cur ++ [t]).length ≠ stack_size := fun he =>
        hfull (by simpa using he)
      have hlt : (cur ++ [t]).length < stack_size := by
        simp only [List.length_append, List.length_singleton] at hne2 ⊢
        omega
      obtain ⟨ih1, ih2⟩ := ih (cur ++ [t]) hlt
      refine ⟨?_, ih2⟩
      rw [ih1]
      simp

theorem drop_tiles_spec (b : Board) (tiles : List RuinTile) :
    ∃ news : List Space,
      (b.drop_tiles_to_bottom tiles 3).spaces = b.spaces ++ news ∧
      (news.map Space.ruins).flatten = tiles ∧
      ∀ s ∈ news, s.ruins.length ≤ 3 ∧ s.ruins ≠ [] := by
  unfold Board.drop_tiles_to_bottom
  by_cases ht : tiles.isEmpty
  · rw [if_pos ht]
    exact ⟨[], by simp, by simp [List.isEmpty_iff.mp ht], by simp⟩
  · rw [if_neg ht]
    obtain ⟨h1, h2⟩ := drop_loop_spec 3 (by omega) tiles [] (by simp)
    exact ⟨_, rfl, by simpa using h1, h2⟩

theorem compress_path_append (b : Board) (news : List Space)
    (hne : ∀ s ∈ news, s.has_ruin = true) :
    (Board.mk (b.spaces ++ news)).compress_path.spaces
      = b.compress_path.spaces ++ news := by
  have hfn : ∀ l : List Space, (∀ s ∈ l, s.has_ruin = true) →
      l.filter (fun s => s.has_ruin) = l :=
    fun l h => List.filter_eq_self.mpr h
  rcases hb : b.spaces with _ | ⟨s0, rest⟩
  · unfold Board.compress_path
    rw [hb]
    rcases hn : news with _ | ⟨s, rest2⟩
    · simp [hb]
    · have h2 : ∀ a ∈ rest2, a.has_ruin = true := by
        intro a ha
        apply hne
        rw [hn]
        exact List.mem_cons_of_mem _ ha
      simp [hfn rest2 h2, hb]
  · unfold Board.compress_path
    rw [hb]
    simp only [List.cons_append]
    simp [List.filter_append, hfn news hne]

theorem end_round_players_exhausted (g : Game) (h : g.air ≤ 0) :
    g.end_round.players = (g.drain_result).1 := by
  unfold Game.end_round Game.drain_result Game.drain_order
  dsimp only
  rw [if_pos h]
  split_ifs <;> rfl

theorem end_round_board_exhausted (g : Game) (h : g.air ≤ 0) :
    g.end_round.board
      = (if !(g.drain_result).2.isEmpty
         then g.board.drop_tiles_to_bottom (g.drain_result).2 3
         else g.board).compress_path := by
  unfold Game.end_round Game.drain_result Game.drain_order
  dsimp only
  rw [if_pos h]
  split_ifs <;> rfl

/-- C4: whenever `end_round` runs with air ≤ 0, players are processed in
decreasing order of distance from the submarine (the stable descending
sort `drain_order`); every player on the submarine moves its carried
tiles to its banked tiles, every other player loses all carried tiles
with its banked tiles unchanged; and the lost tiles are appended after
the (compressed) board as new spaces of at most 3 tiles each, in the
LIFO order they were dropped. -/
theorem C4_end_round_exhaustion (g : Game) (h : g.air ≤ 0) :
    (g.drain_order).Pairwise
      (fun a b => (g.getPlayer b).position ≤ (g.getPlayer a).position) ∧
    (∀ i, i < g.players.length →
      ((g.getPlayer i).is_on_submarine = true →
        (g.end_round.getPlayer i).score_tiles
          = (g.getPlayer i).score_tiles ++ (g.getPlayer i).carrying) ∧
      ((g.getPlayer i).is_on_submarine = false →
        (g.end_round.getPlayer i).score_tiles
          = (g.getPlayer i).score_tiles) ∧
      (g.end_round.getPlayer i).carrying = []) ∧
    (∃ news : List Space,
      g.end_round.board.spaces = g.board.compress_path.spaces ++ news ∧
      (news.map Space.ruins).flatten
        = ((g.drain_order).map
            (fun i => if (g.getPlayer i).is_on_submarine then []
              else (g.getPlayer i).carrying.reverse)).flatten ∧
      ∀ s ∈ news, s.ruins.length ≤ 3 ∧ s.ruins ≠ []) := by
  have hperm : (g.drain_order).Perm (List.range g.players.length) :=
    sort_desc_perm _ _
  have hnd : (g.drain_order).Nodup :=
    hperm.nodup_iff.mpr (List.nodup_range _)
  have hbound : ∀ j ∈ g.drain_order, j < g.players.length := fun j hj =>
    List.mem_range.mp (hperm.mem_iff.mp hj)
  obtain ⟨hdrop, hlen, hout, hin⟩ :=
    end_round_drain_fold (g.drain_order) g.players [] hnd hbound
  have hdrop2 : (g.drain_result).2
      = ((g.drain_order).map (fun j =>
          if (g.getPlayer j).is_on_submarine then []
          else (g.getPlayer j).carrying.reverse)).flatten := by
    have h0 : (g.drain_result).2
        = ((g.drain_order).map (fun j =>
            if (g.getPlayer j).is_on_submarine then []
            else pop_lifo (g.getPlayer j).carrying)).flatten := hdrop
    rw [h0]
    exact congrArg List.flatten (List.map_congr_left (fun j hj => by
      by_cases hsub : (g.getPlayer j).is_on_submarine = true
      · rw [if_pos hsub, if_pos hsub]
      · rw [if_neg hsub, if_neg hsub, pop_lifo_eq_reverse]))
  refine ⟨sort_desc_sorted _ _, ?_, ?_⟩
  · intro i hi
    have hiord : i ∈ g.drain_order := hperm.mem_iff.mpr (List.mem_range.mpr hi)
    have hgi : (g.drain_result).1.getD i default_player
        = (if (g.getPlayer i).is_on_submarine
           then (g.getPlayer i).secure_carried_treasures
           else (g.getPlayer i).drop_all_carrying) := hin i hiord
    have hget : g.end_round.getPlayer i
        = (g.drain_result).1.getD i default_player := by
      unfold Game.getPlayer
      rw [end_round_players_exhausted g h]
    refine ⟨?_, ?_, ?_⟩
    · intro hsub
      rw [hget, hgi, if_pos hsub]
      rfl
    · intro hsub
      rw [hget, hgi, if_neg (by simp [hsub])]
      rfl
    · by_cases hsub : (g.getPlayer i).is_on_submarine = true
      · rw [hget, hgi, if_pos hsub]
        rfl
      · rw [hget, hgi, if_neg hsub]
        rfl
  · by_cases hemp : (g.drain_result).2.isEmpty = true
    · refine ⟨[], ?_, ?_, by simp⟩
      · rw [end_round_board_exhausted g h, if_neg (by simp [hemp])]
        simp
      · rw [← hdrop2]
        simp [List.isEmpty_iff.mp hemp]
    · obtain ⟨news, hn1, hn2, hn3⟩ := drop_tiles_spec g.board (g.drain_result).2
      have hx : (g.drain_result).2.isEmpty = false := by
        cases hx2 : (g.drain_result).2.isEmpty
        · rfl
        · exact absurd hx2 hemp
      refine ⟨news, ?_, ?_, hn3⟩
      · rw [end_round_board_exhausted g h, if_pos (by rw [hx]; rfl)]
        calc (g.board.drop_tiles_to_bottom (g.drain_result).2 3).compress_path.spaces
            = (Board.mk ((g.board.drop_tiles_to_bottom
                (g.drain_result).2 3).spaces)).compress_path.spaces := rfl
          _ = (Board.mk (g.board.spaces ++ news)).compress_path.spaces := by
              rw [hn1]
          _ = g.board.compress_path.spaces ++ news :=
              compress_path_append g.board news (fun s hs => by
                simp [Space.has_ruin, (hn3 s hs).2])
      · rw [hn2, hdrop2]

/-- C4 (witness): applied to `c4_game` (air 0, player 0 safe at the
submarine with one carried tile, player 1 stranded with two). -/
theorem C4_witness :
    (c4_game.drain_order).Pairwise
      (fun a b => (c4_game.getPlayer b).position ≤ (c4_game.getPlayer a).position) ∧
    (∀ i, i < c4_game.players.length →
      ((c4_game.getPlayer i).is_on_submarine = true →
        (c4_game.end_round.getPlayer i).score_tiles
          = (c4_game.getPlayer i).score_tiles ++ (c4_game.getPlayer i).carrying) ∧
      ((c4_game.getPlayer i).is_on_submarine = false →
        (c4_game.end_round.getPlayer i).score_tiles
          = (c4_game.getPlayer i).score_tiles) ∧
      (c4_game.end_round.getPlayer i).carrying = []) ∧
    (∃ news : List Space,
      c4_game.end_round.board.spaces
        = c4_game.board.compress_path.spaces ++ news ∧
      (news.map Space.ruins).flatten
        = ((c4_game.drain_order).map
            (fun i => if (c4_game.getPlayer i).is_on_submarine then []
              else (c4_game.getPlayer i).carrying.reverse)).flatten ∧
      ∀ s ∈ news, s.ruins.length ≤ 3 ∧ s.ruins ≠ []) :=
  C4_end_round_exhaustion c4_game (by decide)

/-- C3 (witness): applied to `c3_game`, player 0 standing on a stack of
three tiles. -/
theorem C3_witness :
    ∃ t : RuinTile,
      (c3_game.perform_action 0 "B").2 = some t ∧
      t.value
        = ((c3_game.board.get_space (c3_game.getPlayer 0).position).ruins.map
            RuinTile.value).sum ∧
      (∀ u ∈ (c3_game.board.get_space (c3_game.getPlayer 0).position).ruins,
        u.level ≤ t.level) ∧
      (∃ u ∈ (c3_game.board.get_space (c3_game.getPlayer 0).position).ruins,
        u.level = t.level) ∧
      ((c3_game.perform_action 0 "B").1.getPlayer 0).carrying
        = (c3_game.getPlayer 0).carrying ++ [t] ∧
      ((c3_game.perform_action 0 "B").1.board.get_space
        (c3_game.getPlayer 0).position).ruins = [] :=
  C3_pickup_collapses_stack c3_game 0 (by decide) (by decide) (by decide)
    (by decide)

end DeepSea
